import Mathlib

/-!
Verification of the sky_engine picture rasterization cache
(`sky/compositor/picture_rasterizer.cc`, `picture_layer.cc`,
`paint_context.cc`) against its natural-language specification.

The cache state, its lookup/rasterize operation and its per-frame purge are
embedded shallowly: the `std::unordered_map` becomes an association list,
Skia image/texture handles become abstract tagged values, and the GPU
backend's fallible allocation is an explicit per-call outcome.
-/

namespace SkyCompositor

/-- Width/height pair in device pixels, mirroring Skia's `SkISize`. -/
structure SkISize where
  width : Int
  height : Int
deriving DecidableEq, Repr

/-- Skia's `SkISize::isEmpty`: true when either dimension is non-positive. -/
def SkISize.isEmpty (s : SkISize) : Bool :=
  s.width ≤ 0 || s.height ≤ 0

/-- An immutable picture; only its stable `uniqueID` matters to the cache. -/
structure SkPicture where
  uniqueID : Nat
deriving DecidableEq, Repr

/-- An abstract GPU texture handle (`GrTexture*`). -/
structure GrTexture where
  ident : Nat
deriving DecidableEq, Repr

/-- An abstract immutable image handle (`SkImage`). -/
structure SkImage where
  ident : Nat
deriving DecidableEq, Repr

/-- The scale factors of the current canvas transform (`SkMatrix`); the
rasterizer reads only `getScaleX`/`getScaleY`. -/
structure SkMatrix where
  scaleX : ℚ
  scaleY : ℚ
deriving DecidableEq, Repr

/-- Outcome of the GPU backend for one rasterization attempt:
`texture` is the result of `textureProvider()->createTexture` (fallible),
`wrap` the result of `SkImage::NewFromTexture` (also fallible). -/
structure GpuCall where
  texture : Option GrTexture
  wrap : Option SkImage
deriving DecidableEq, Repr

/-- Cache key: `PictureRasterzier::Key(uint32_t ident, SkISize sz)`. -/
structure Key where
  pictureID : Nat
  size : SkISize
deriving DecidableEq, Repr

/-- Modelled from the spec: `Value::kDeadAccessCount` is declared in
`picture_rasterizer.h`, which is not among the sources. The spec fixes its
value: an entry is inserted with counter 1 and reaches DEAD after exactly two
per-frame decrements ("two decrements from initial value 1 → DEAD"), and an
entry that survives one purge must not be dead, so DEAD = -1. -/
def kDeadAccessCount : Int := -1

/-- Cache entry: `PictureRasterzier::Value` with its `access_count` and the
optional owned image. -/
structure Value where
  access_count : Int
  image : Option SkImage
deriving DecidableEq, Repr

/-- Default-constructed `Value()`: dead counter, no image. -/
def Value.default : Value :=
  { access_count := kDeadAccessCount, image := none }

/-- The rasterizer: the keyed map plus the three statistics counters. -/
structure PictureRasterzier where
  cache : List (Key × Value)
  cache_hits : Nat
  cache_fills : Nat
  cache_evictions : Nat
deriving DecidableEq, Repr

/-- A freshly constructed `PictureRasterzier()`: empty map, zero counters. -/
def PictureRasterzier.init : PictureRasterzier :=
  { cache := [], cache_hits := 0, cache_fills := 0, cache_evictions := 0 }

/-- Lookup in the association list modelling the `unordered_map`. -/
def cacheLookup : List (Key × Value) → Key → Option Value
  | [], _ => none
  | (k', v) :: rest, k => if k' = k then some v else cacheLookup rest k

/-- Store a value for a key, replacing the existing binding if present
(the semantics of assigning through `cache_[key]`). -/
def cacheInsert : List (Key × Value) → Key → Value → List (Key × Value)
  | [], k, v => [(k, v)]
  | (k', v') :: rest, k, v =>
      if k' = k then (k, v) :: rest else (k', v') :: cacheInsert rest k v

/-- The map holds at most one binding per key. -/
def keysNodup (cache : List (Key × Value)) : Prop :=
  (cache.map Prod.fst).Nodup

instance (cache : List (Key × Value)) : Decidable (keysNodup cache) := by
  unfold keysNodup; infer_instance

/-- `PictureRasterzier::ImageFromPicture`, as it affects the cache state:
allocate a texture (fallible); on success render the picture and wrap the
texture as an image (fallible); increment the fill counter exactly when the
wrapped image is non-null. Returns the image and the updated state. -/
def ImageFromPicture (gpu : GpuCall) (st : PictureRasterzier) :
    Option SkImage × PictureRasterzier :=
  match gpu.texture with
  | none => (none, st)
  | some _ =>
    match gpu.wrap with
    | none => (none, st)
    | some img => (some img, { st with cache_fills := st.cache_fills + 1 })

/-- `PictureRasterzier::GetCachedImageIfPresent`. Guard: empty size, null
picture or null `GrContext` returns null untouched. Otherwise index the map
(default-constructing a dead entry on a miss): a dead entry is revived to
counter 1 and null is returned; a live entry has its counter incremented,
is rasterized if it has no image yet, and a non-null image bumps the hit
counter and is returned. -/
def GetCachedImageIfPresent (gpu : GpuCall) (grContextPresent : Bool)
    (picture : Option SkPicture) (physical_size : SkISize)
    (st : PictureRasterzier) : Option SkImage × PictureRasterzier :=
  match picture with
  | none => (none, st)
  | some pic =>
    if physical_size.isEmpty || !grContextPresent then (none, st)
    else
      let key : Key := { pictureID := pic.uniqueID, size := physical_size }
      let value := (cacheLookup st.cache key).getD Value.default
      if value.access_count = kDeadAccessCount then
        (none, { st with
          cache := cacheInsert st.cache key { value with access_count := 1 } })
      else
        let value := { value with access_count := value.access_count + 1 }
        let rasterized :=
          match value.image with
          | some img => (some img, st)
          | none => ImageFromPicture gpu st
        let value := { value with image := rasterized.1 }
        let st' := { rasterized.2 with
          cache := cacheInsert rasterized.2.cache key value }
        match value.image with
        | some img => (some img, { st' with cache_hits := st'.cache_hits + 1 })
        | none => (none, st')

/-- Decrement of one entry, as in `--item.second.access_count`. -/
def decValue (v : Value) : Value :=
  { v with access_count := v.access_count - 1 }

/-- `PictureRasterzier::PurgeCache`: decrement every entry's counter, erase
exactly the entries whose decremented counter equals the dead sentinel, and
increase the eviction counter by the number erased. -/
def PurgeCache (st : PictureRasterzier) : PictureRasterzier :=
  let decremented := st.cache.map (fun kv => (kv.1, decValue kv.2))
  { st with
    cache := decremented.filter
      (fun kv => ¬ kv.2.access_count = kDeadAccessCount),
    cache_evictions := st.cache_evictions +
      decremented.countP (fun kv => kv.2.access_count = kDeadAccessCount) }

/-! Association-list lemmas for the cache map. -/

theorem cacheLookup_eq_none_of_not_mem {l : List (Key × Value)} {k : Key}
    (h : k ∉ l.map Prod.fst) : cacheLookup l k = none := by
  induction l with
  | nil => rfl
  | cons hd tl ih =>
    simp only [List.map_cons, List.mem_cons, not_or] at h
    simp only [cacheLookup]
    rw [if_neg (fun e => h.1 e.symm), ih h.2]

theorem mem_of_cacheLookup {l : List (Key × Value)} {k : Key} {v : Value}
    (h : cacheLookup l k = some v) : (k, v) ∈ l := by
  induction l with
  | nil => simp [cacheLookup] at h
  | cons hd tl ih =>
    obtain ⟨k', v'⟩ := hd
    simp only [cacheLookup] at h
    by_cases he : k' = k
    · rw [if_pos he] at h
      subst he
      cases h
      exact List.mem_cons_self _ _
    · rw [if_neg he] at h
      exact List.mem_cons_of_mem _ (ih h)

theorem cacheLookup_of_mem_nodup {l : List (Key × Value)} {k : Key} {v : Value}
    (hmem : (k, v) ∈ l) (hnd : keysNodup l) : cacheLookup l k = some v := by
  induction l with
  | nil => simp at hmem
  | cons hd tl ih =>
    obtain ⟨k', v'⟩ := hd
    simp only [keysNodup, List.map_cons, List.nodup_cons] at hnd
    rcases List.mem_cons.mp hmem with heq | hmem'
    · cases heq
      simp [cacheLookup]
    · have hk : k' ≠ k := by
        intro e
        subst e
        exact hnd.1 (List.mem_map.mpr ⟨(k', v), hmem', rfl⟩)
      simp only [cacheLookup, if_neg hk]
      exact ih hmem' hnd.2

theorem cacheLookup_insert_self (l : List (Key × Value)) (k : Key) (v : Value) :
    cacheLookup (cacheInsert l k v) k = some v := by
  induction l with
  | nil => simp [cacheInsert, cacheLookup]
  | cons hd tl ih =>
    obtain ⟨k', v'⟩ := hd
    by_cases h : k' = k
    · subst h
      simp [cacheInsert, cacheLookup]
    · simp only [cacheInsert, if_neg h, cacheLookup]
      exact ih

theorem cacheLookup_insert_ne {l : List (Key × Value)} {k k' : Key}
    (v : Value) (h : k' ≠ k) :
    cacheLookup (cacheInsert l k v) k' = cacheLookup l k' := by
  induction l with
  | nil =>
    simp only [cacheInsert, cacheLookup]
    rw [if_neg (fun e => h e.symm)]
  | cons hd tl ih =>
    obtain ⟨k'', v''⟩ := hd
    by_cases hk : k'' = k
    · subst hk
      simp only [cacheInsert, if_pos rfl, cacheLookup]
      rw [if_neg (fun e => h e.symm), if_neg (fun e => h e.symm)]
    · simp only [cacheInsert, if_neg hk, cacheLookup]
      by_cases he : k'' = k'
      · rw [if_pos he, if_pos he]
      · rw [if_neg he, if_neg he, ih]

theorem mem_keys_insert {l : List (Key × Value)} {k a : Key} {v : Value} :
    a ∈ (cacheInsert l k v).map Prod.fst →
      a = k ∨ a ∈ l.map Prod.fst := by
  induction l with
  | nil =>
    intro h
    simp only [cacheInsert, List.map_cons, List.map_nil,
      List.mem_singleton] at h
    exact Or.inl h
  | cons hd tl ih =>
    intro h
    obtain ⟨k', v'⟩ := hd
    by_cases hk : k' = k
    · rw [show cacheInsert ((k', v') :: tl) k v = (k, v) :: tl by
        simp [cacheInsert, hk]] at h
      simp only [List.map_cons, List.mem_cons] at h
      rcases h with h | h
      · exact Or.inl h
      · exact Or.inr (List.mem_cons_of_mem _ h)
    · rw [show cacheInsert ((k', v') :: tl) k v =
          (k', v') :: cacheInsert tl k v by simp [cacheInsert, hk]] at h
      simp only [List.map_cons, List.mem_cons] at h
      rcases h with h | h
      · exact Or.inr (List.mem_cons.mpr (Or.inl h))
      · rcases ih h with h' | h'
        · exact Or.inl h'
        · exact Or.inr (List.mem_cons_of_mem _ h')

theorem keysNodup_insert {l : List (Key × Value)} (k : Key) (v : Value)
    (hnd : keysNodup l) : keysNodup (cacheInsert l k v) := by
  induction l with
  | nil => simp [cacheInsert, keysNodup]
  | cons hd tl ih =>
    obtain ⟨k', v'⟩ := hd
    simp only [keysNodup, List.map_cons, List.nodup_cons] at hnd
    by_cases h : k' = k
    · rw [show cacheInsert ((k', v') :: tl) k v = (k, v) :: tl by
        simp [cacheInsert, h]]
      simp only [keysNodup, List.map_cons, List.nodup_cons]
      subst h
      exact ⟨hnd.1, hnd.2⟩
    · simp only [cacheInsert, if_neg h, keysNodup, List.map_cons,
        List.nodup_cons]
      refine ⟨fun hmem => ?_, ih hnd.2⟩
      rcases mem_keys_insert hmem with rfl | hmem'
      · exact h rfl
      · exact hnd.1 hmem'

theorem cacheLookup_map (f : Value → Value) (l : List (Key × Value)) (k : Key) :
    cacheLookup (l.map (fun kv => (kv.1, f kv.2))) k =
      (cacheLookup l k).map f := by
  induction l with
  | nil => rfl
  | cons hd tl ih =>
    obtain ⟨k', v'⟩ := hd
    by_cases h : k' = k <;> simp [cacheLookup, h, ih]

theorem mem_keys_of_mem_keys_filter {p : Key × Value → Bool}
    {l : List (Key × Value)} {a : Key}
    (h : a ∈ (l.filter p).map Prod.fst) : a ∈ l.map Prod.fst := by
  rcases List.mem_map.mp h with ⟨kv, hmem, rfl⟩
  exact List.mem_map.mpr ⟨kv, List.mem_of_mem_filter hmem, rfl⟩

theorem cacheLookup_filter (p : Key × Value → Bool) {l : List (Key × Value)}
    (hnd : keysNodup l) (k : Key) :
    cacheLookup (l.filter p) k =
      (cacheLookup l k).bind (fun v => if p (k, v) then some v else none) := by
  induction l with
  | nil => rfl
  | cons hd tl ih =>
    obtain ⟨k', v'⟩ := hd
    simp only [keysNodup, List.map_cons, List.nodup_cons] at hnd
    by_cases h : k' = k
    · subst h
      by_cases hp : p (k', v')
      · simp [List.filter_cons, hp, cacheLookup]
      · have hnone : cacheLookup (tl.filter p) k' = none :=
          cacheLookup_eq_none_of_not_mem
            (fun hmem => hnd.1 (mem_keys_of_mem_keys_filter hmem))
        simp [List.filter_cons, hp, cacheLookup, hnone]
    · by_cases hp : p (k', v') <;>
        simp [List.filter_cons, hp, cacheLookup, h, ih hnd.2]

theorem keys_map_values (f : Value → Value) (l : List (Key × Value)) :
    (l.map (fun kv => (kv.1, f kv.2))).map Prod.fst = l.map Prod.fst := by
  induction l with
  | nil => rfl
  | cons hd tl ih => simp [ih]

theorem keysNodup_purge {st : PictureRasterzier} (hnd : keysNodup st.cache) :
    keysNodup (PurgeCache st).cache := by
  have h2 : keysNodup (st.cache.map (fun kv => (kv.1, decValue kv.2))) := by
    unfold keysNodup
    rw [keys_map_values]
    exact hnd
  exact List.Nodup.sublist
    (List.Sublist.map _ (List.filter_sublist _)) h2

theorem cacheLookup_purge (st : PictureRasterzier) (hnd : keysNodup st.cache)
    (k : Key) :
    cacheLookup (PurgeCache st).cache k =
      (cacheLookup st.cache k).bind
        (fun v => if (decValue v).access_count = kDeadAccessCount
                  then none else some (decValue v)) := by
  have h2 : keysNodup (st.cache.map (fun kv => (kv.1, decValue kv.2))) := by
    unfold keysNodup
    rw [keys_map_values]
    exact hnd
  unfold PurgeCache
  rw [cacheLookup_filter _ h2 k, cacheLookup_map]
  cases cacheLookup st.cache k with
  | none => rfl
  | some v =>
    simp only [Option.map_some, Option.bind_some]
    by_cases hd : (decValue v).access_count = kDeadAccessCount
    · simp [hd]
    · simp [hd]

theorem purge_evictions (st : PictureRasterzier) :
    (PurgeCache st).cache_evictions =
      st.cache_evictions +
        st.cache.countP
          (fun kv => kv.2.access_count - 1 = kDeadAccessCount) := by
  unfold PurgeCache
  simp only [List.countP_map]
  rfl

/-! Unfolding lemmas for `GetCachedImageIfPresent`, one per control path. -/

theorem getCached_invalid (gpu : GpuCall) (grContextPresent : Bool)
    (picture : Option SkPicture) (sz : SkISize) (st : PictureRasterzier)
    (h : sz.isEmpty = true ∨ picture = none ∨ grContextPresent = false) :
    GetCachedImageIfPresent gpu grContextPresent picture sz st = (none, st) := by
  rcases picture with _ | pic
  · rfl
  · rcases h with h | h | h
    · simp [GetCachedImageIfPresent, h]
    · simp at h
    · simp [GetCachedImageIfPresent, h]

theorem getCached_dead (gpu : GpuCall) (pic : SkPicture) (sz : SkISize)
    (st : PictureRasterzier) (hsz : sz.isEmpty = false)
    (hdead : ((cacheLookup st.cache ⟨pic.uniqueID, sz⟩).getD
        Value.default).access_count = kDeadAccessCount) :
    GetCachedImageIfPresent gpu true (some pic) sz st =
      (none, { st with
        cache := cacheInsert st.cache ⟨pic.uniqueID, sz⟩
          { (cacheLookup st.cache ⟨pic.uniqueID, sz⟩).getD Value.default with
            access_count := 1 } }) := by
  simp [GetCachedImageIfPresent, hsz, hdead]

theorem getCached_live_image (gpu : GpuCall) (pic : SkPicture) (sz : SkISize)
    (st : PictureRasterzier) (v : Value) (img : SkImage)
    (hsz : sz.isEmpty = false)
    (hl : cacheLookup st.cache ⟨pic.uniqueID, sz⟩ = some v)
    (hlive : ¬ v.access_count = kDeadAccessCount)
    (himg : v.image = some img) :
    GetCachedImageIfPresent gpu true (some pic) sz st =
      (some img, { st with
        cache := cacheInsert st.cache ⟨pic.uniqueID, sz⟩
          ⟨v.access_count + 1, some img⟩,
        cache_hits := st.cache_hits + 1 }) := by
  simp [GetCachedImageIfPresent, hsz, hl, hlive, himg]

theorem getCached_live_alloc_fail (gpu : GpuCall) (pic : SkPicture)
    (sz : SkISize) (st : PictureRasterzier) (v : Value)
    (hsz : sz.isEmpty = false)
    (hl : cacheLookup st.cache ⟨pic.uniqueID, sz⟩ = some v)
    (hlive : ¬ v.access_count = kDeadAccessCount)
    (himg : v.image = none) (htex : gpu.texture = none) :
    GetCachedImageIfPresent gpu true (some pic) sz st =
      (none, { st with
        cache := cacheInsert st.cache ⟨pic.uniqueID, sz⟩
          ⟨v.access_count + 1, none⟩ }) := by
  simp [GetCachedImageIfPresent, ImageFromPicture, hsz, hl, hlive, himg, htex]

theorem getCached_live_wrap_fail (gpu : GpuCall) (pic : SkPicture)
    (sz : SkISize) (st : PictureRasterzier) (v : Value) (t : GrTexture)
    (hsz : sz.isEmpty = false)
    (hl : cacheLookup st.cache ⟨pic.uniqueID, sz⟩ = some v)
    (hlive : ¬ v.access_count = kDeadAccessCount)
    (himg : v.image = none) (htex : gpu.texture = some t)
    (hwrap : gpu.wrap = none) :
    GetCachedImageIfPresent gpu true (some pic) sz st =
      (none, { st with
        cache := cacheInsert st.cache ⟨pic.uniqueID, sz⟩
          ⟨v.access_count + 1, none⟩ }) := by
  simp [GetCachedImageIfPresent, ImageFromPicture, hsz, hl, hlive, himg,
    htex, hwrap]

theorem getCached_live_raster_ok (gpu : GpuCall) (pic : SkPicture)
    (sz : SkISize) (st : PictureRasterzier) (v : Value) (t : GrTexture)
    (img : SkImage) (hsz : sz.isEmpty = false)
    (hl : cacheLookup st.cache ⟨pic.uniqueID, sz⟩ = some v)
    (hlive : ¬ v.access_count = kDeadAccessCount)
    (himg : v.image = none) (htex : gpu.texture = some t)
    (hwrap : gpu.wrap = some img) :
    GetCachedImageIfPresent gpu true (some pic) sz st =
      (some img, { st with
        cache := cacheInsert st.cache ⟨pic.uniqueID, sz⟩
          ⟨v.access_count + 1, some img⟩,
        cache_hits := st.cache_hits + 1,
        cache_fills := st.cache_fills + 1 }) := by
  simp [GetCachedImageIfPresent, ImageFromPicture, hsz, hl, hlive, himg,
    htex, hwrap]

/-- Fresh-miss path: a key absent from the map default-constructs a dead
entry, which is revived to counter 1 with no image, returning null. -/
theorem getCached_fresh (gpu : GpuCall) (pic : SkPicture) (sz : SkISize)
    (st : PictureRasterzier) (hsz : sz.isEmpty = false)
    (hfresh : cacheLookup st.cache ⟨pic.uniqueID, sz⟩ = none) :
    GetCachedImageIfPresent gpu true (some pic) sz st =
      (none, { st with
        cache := cacheInsert st.cache ⟨pic.uniqueID, sz⟩ ⟨1, none⟩ }) := by
  have h := getCached_dead gpu pic sz st hsz (by rw [hfresh]; rfl)
  rw [h, hfresh]
  rfl

theorem value_eq_of_mem_lookup {l : List (Key × Value)} {k : Key}
    {v w : Value} (hmem : (k, w) ∈ l) (hnd : keysNodup l)
    (hl : cacheLookup l k = some v) : w = v := by
  have h := cacheLookup_of_mem_nodup hmem hnd
  rw [hl] at h
  exact (Option.some.inj h).symm

theorem countP_key_eq_one {l : List (Key × Value)} {k : Key}
    (hnd : keysNodup l) (hmem : k ∈ l.map Prod.fst) :
    l.countP (fun kv => kv.1 = k) = 1 := by
  induction l with
  | nil => simp at hmem
  | cons hd tl ih =>
    obtain ⟨k', v'⟩ := hd
    simp only [keysNodup, List.map_cons, List.nodup_cons] at hnd
    by_cases h : k' = k
    · subst h
      rw [List.countP_cons_of_pos _ _ (by simp)]
      have hz : tl.countP (fun kv => kv.1 = k') = 0 :=
        List.countP_eq_zero.mpr (fun kv hkv hp => by
          simp only [decide_eq_true_eq] at hp
          exact hnd.1 (List.mem_map.mpr ⟨kv, hkv, hp⟩))
      rw [hz]
    · rw [List.countP_cons_of_neg _ _ (by simp [h])]
      apply ih hnd.2
      rcases List.mem_cons.mp hmem with h' | h'
      · exact absurd h'.symm h
      · exact h'

/-! Claim theorems. -/

/-- C1: for a previously-unseen cache key with valid inputs, the first
`GetCachedImageIfPresent` call returns null, inserts an entry with
access count 1 and no image, and leaves the hit, fill and eviction counters
untouched (no rasterization happens), regardless of the GPU outcome. -/
theorem first_call_fresh_key_misses (gpu : GpuCall) (pic : SkPicture)
    (sz : SkISize) (st : PictureRasterzier) (hsz : sz.isEmpty = false)
    (hfresh : cacheLookup st.cache ⟨pic.uniqueID, sz⟩ = none) :
    (GetCachedImageIfPresent gpu true (some pic) sz st).1 = none ∧
    cacheLookup (GetCachedImageIfPresent gpu true (some pic) sz st).2.cache
      ⟨pic.uniqueID, sz⟩ = some ⟨1, none⟩ ∧
    (GetCachedImageIfPresent gpu true (some pic) sz st).2.cache_fills =
      st.cache_fills ∧
    (GetCachedImageIfPresent gpu true (some pic) sz st).2.cache_hits =
      st.cache_hits ∧
    (GetCachedImageIfPresent gpu true (some pic) sz st).2.cache_evictions =
      st.cache_evictions := by
  rw [getCached_fresh gpu pic sz st hsz hfresh]
  exact ⟨rfl, cacheLookup_insert_self _ _ _, rfl, rfl, rfl⟩

/-- Witness for C1 at a concrete never-seen key, with a GPU call that would
succeed (showing the miss is served regardless). -/
theorem first_call_fresh_key_misses_witness :
    (GetCachedImageIfPresent ⟨some ⟨0⟩, some ⟨0⟩⟩ true (some ⟨7⟩) ⟨2, 3⟩
      PictureRasterzier.init).1 = none ∧
    cacheLookup (GetCachedImageIfPresent ⟨some ⟨0⟩, some ⟨0⟩⟩ true (some ⟨7⟩)
      ⟨2, 3⟩ PictureRasterzier.init).2.cache ⟨7, ⟨2, 3⟩⟩ = some ⟨1, none⟩ ∧
    (GetCachedImageIfPresent ⟨some ⟨0⟩, some ⟨0⟩⟩ true (some ⟨7⟩) ⟨2, 3⟩
      PictureRasterzier.init).2.cache_fills =
        PictureRasterzier.init.cache_fills ∧
    (GetCachedImageIfPresent ⟨some ⟨0⟩, some ⟨0⟩⟩ true (some ⟨7⟩) ⟨2, 3⟩
      PictureRasterzier.init).2.cache_hits =
        PictureRasterzier.init.cache_hits ∧
    (GetCachedImageIfPresent ⟨some ⟨0⟩, some ⟨0⟩⟩ true (some ⟨7⟩) ⟨2, 3⟩
      PictureRasterzier.init).2.cache_evictions =
        PictureRasterzier.init.cache_evictions :=
  first_call_fresh_key_misses ⟨some ⟨0⟩, some ⟨0⟩⟩ ⟨7⟩ ⟨2, 3⟩
    PictureRasterzier.init (by decide) (by decide)

/-- C6: an empty target size, a null picture, or a null GPU backend makes
`GetCachedImageIfPresent` return null with the cache map and all three
counters completely unchanged. -/
theorem invalid_inputs_are_noops (gpu : GpuCall) (grContextPresent : Bool)
    (picture : Option SkPicture) (sz : SkISize) (st : PictureRasterzier)
    (h : sz.isEmpty = true ∨ picture = none ∨ grContextPresent = false) :
    (GetCachedImageIfPresent gpu grContextPresent picture sz st).1 = none ∧
    (GetCachedImageIfPresent gpu grContextPresent picture sz st).2.cache =
      st.cache ∧
    (GetCachedImageIfPresent gpu grContextPresent picture sz st).2.cache_hits =
      st.cache_hits ∧
    (GetCachedImageIfPresent gpu grContextPresent picture sz st).2.cache_fills =
      st.cache_fills ∧
    (GetCachedImageIfPresent gpu grContextPresent picture sz
      st).2.cache_evictions = st.cache_evictions := by
  rw [getCached_invalid gpu grContextPresent picture sz st h]
  exact ⟨rfl, rfl, rfl, rfl, rfl⟩

/-- Witness for C6 at a concrete zero-area size. -/
theorem invalid_inputs_are_noops_witness :
    (GetCachedImageIfPresent ⟨some ⟨0⟩, some ⟨0⟩⟩ true (some ⟨7⟩) ⟨0, 5⟩
      PictureRasterzier.init).1 = none ∧
    (GetCachedImageIfPresent ⟨some ⟨0⟩, some ⟨0⟩⟩ true (some ⟨7⟩) ⟨0, 5⟩
      PictureRasterzier.init).2.cache = PictureRasterzier.init.cache ∧
    (GetCachedImageIfPresent ⟨some ⟨0⟩, some ⟨0⟩⟩ true (some ⟨7⟩) ⟨0, 5⟩
      PictureRasterzier.init).2.cache_hits =
        PictureRasterzier.init.cache_hits ∧
    (GetCachedImageIfPresent ⟨some ⟨0⟩, some ⟨0⟩⟩ true (some ⟨7⟩) ⟨0, 5⟩
      PictureRasterzier.init).2.cache_fills =
        PictureRasterzier.init.cache_fills ∧
    (GetCachedImageIfPresent ⟨some ⟨0⟩, some ⟨0⟩⟩ true (some ⟨7⟩) ⟨0, 5⟩
      PictureRasterzier.init).2.cache_evictions =
        PictureRasterzier.init.cache_evictions :=
  invalid_inputs_are_noops ⟨some ⟨0⟩, some ⟨0⟩⟩ true (some ⟨7⟩) ⟨0, 5⟩
    PictureRasterzier.init (Or.inl (by decide))

/-- C10: a key whose entry the purge just evicted behaves, on its next
lookup, exactly like a never-seen key: null is returned, a fresh entry with
access count 1 and no image is inserted, and no counter moves. -/
theorem evicted_key_restarts_warmup (gpu : GpuCall) (pic : SkPicture)
    (sz : SkISize) (st : PictureRasterzier) (v : Value)
    (hnd : keysNodup st.cache) (hsz : sz.isEmpty = false)
    (hl : cacheLookup st.cache ⟨pic.uniqueID, sz⟩ = some v)
    (hev : (decValue v).access_count = kDeadAccessCount) :
    (GetCachedImageIfPresent gpu true (some pic) sz (PurgeCache st)).1 =
      none ∧
    cacheLookup (GetCachedImageIfPresent gpu true (some pic) sz
      (PurgeCache st)).2.cache ⟨pic.uniqueID, sz⟩ = some ⟨1, none⟩ ∧
    (GetCachedImageIfPresent gpu true (some pic) sz
      (PurgeCache st)).2.cache_fills = (PurgeCache st).cache_fills ∧
    (GetCachedImageIfPresent gpu true (some pic) sz
      (PurgeCache st)).2.cache_hits = (PurgeCache st).cache_hits := by
  have hfresh : cacheLookup (PurgeCache st).cache ⟨pic.uniqueID, sz⟩ =
      none := by
    rw [cacheLookup_purge st hnd, hl]
    simp [hev]
  rw [getCached_fresh gpu pic sz (PurgeCache st) hsz hfresh]
  exact ⟨rfl, cacheLookup_insert_self _ _ _, rfl, rfl⟩

/-- Witness for C10: a concrete entry with counter 0 is evicted by the
purge, and the following lookup re-runs the fresh-miss path. -/
theorem evicted_key_restarts_warmup_witness :
    (GetCachedImageIfPresent ⟨some ⟨0⟩, some ⟨0⟩⟩ true (some ⟨7⟩) ⟨2, 3⟩
      (PurgeCache ⟨[(⟨7, ⟨2, 3⟩⟩, ⟨0, none⟩)], 0, 0, 0⟩)).1 = none ∧
    cacheLookup (GetCachedImageIfPresent ⟨some ⟨0⟩, some ⟨0⟩⟩ true (some ⟨7⟩)
      ⟨2, 3⟩ (PurgeCache ⟨[(⟨7, ⟨2, 3⟩⟩, ⟨0, none⟩)], 0, 0, 0⟩)).2.cache
        ⟨7, ⟨2, 3⟩⟩ = some ⟨1, none⟩ ∧
    (GetCachedImageIfPresent ⟨some ⟨0⟩, some ⟨0⟩⟩ true (some ⟨7⟩) ⟨2, 3⟩
      (PurgeCache ⟨[(⟨7, ⟨2, 3⟩⟩, ⟨0, none⟩)], 0, 0, 0⟩)).2.cache_fills =
      (PurgeCache ⟨[(⟨7, ⟨2, 3⟩⟩, ⟨0, none⟩)], 0, 0, 0⟩).cache_fills ∧
    (GetCachedImageIfPresent ⟨some ⟨0⟩, some ⟨0⟩⟩ true (some ⟨7⟩) ⟨2, 3⟩
      (PurgeCache ⟨[(⟨7, ⟨2, 3⟩⟩, ⟨0, none⟩)], 0, 0, 0⟩)).2.cache_hits =
      (PurgeCache ⟨[(⟨7, ⟨2, 3⟩⟩, ⟨0, none⟩)], 0, 0, 0⟩).cache_hits :=
  evicted_key_restarts_warmup ⟨some ⟨0⟩, some ⟨0⟩⟩ ⟨7⟩ ⟨2, 3⟩
    ⟨[(⟨7, ⟨2, 3⟩⟩, ⟨0, none⟩)], 0, 0, 0⟩ ⟨0, none⟩ (by decide) (by decide)
    (by decide) (by decide)

/-- C2: one purge decrements every entry and removes exactly the entries
whose counter reaches the dead sentinel, bumping the eviction counter by
exactly the number removed; consequently a key with counter 1 (requested in
frame N) that is not requested again is gone after the purge ending frame
N+1, and — when no other entry dies in those two purges — the eviction
counter rises by exactly 1. -/
theorem purge_decrements_and_evicts (st : PictureRasterzier)
    (hnd : keysNodup st.cache) :
    (∀ k, cacheLookup (PurgeCache st).cache k =
        (cacheLookup st.cache k).bind
          (fun v => if (decValue v).access_count = kDeadAccessCount
                    then none else some (decValue v))) ∧
    (PurgeCache st).cache_evictions =
      st.cache_evictions +
        st.cache.countP
          (fun kv => kv.2.access_count - 1 = kDeadAccessCount) ∧
    (∀ k v, cacheLookup st.cache k = some v → v.access_count = 1 →
      cacheLookup (PurgeCache (PurgeCache st)).cache k = none ∧
      ((∀ kv ∈ st.cache, kv.1 ≠ k →
          kv.2.access_count ≠ 0 ∧ kv.2.access_count ≠ 1) →
        (PurgeCache (PurgeCache st)).cache_evictions =
          st.cache_evictions + 1)) := by
  refine ⟨cacheLookup_purge st hnd, purge_evictions st, ?_⟩
  intro k v hl hv1
  constructor
  · rw [cacheLookup_purge (PurgeCache st) (keysNodup_purge hnd) k,
      cacheLookup_purge st hnd k, hl]
    simp [decValue, hv1, kDeadAccessCount]
  · intro hother
    have hz : st.cache.countP
        (fun kv => kv.2.access_count - 1 = kDeadAccessCount) = 0 := by
      refine List.countP_eq_zero.mpr (fun kv hkv hp => ?_)
      simp only [decide_eq_true_eq, kDeadAccessCount] at hp
      obtain ⟨k', v'⟩ := kv
      by_cases hk : k' = k
      · subst hk
        have hv : v' = v := value_eq_of_mem_lookup hkv hnd hl
        rw [hv, hv1] at hp
        simp [kDeadAccessCount] at hp
      · have := (hother (k', v') hkv hk).1
        omega
    have hmemk : k ∈ (PurgeCache st).cache.map Prod.fst := by
      have hlk : cacheLookup (PurgeCache st).cache k = some (decValue v) := by
        rw [cacheLookup_purge st hnd k, hl]
        simp [decValue, hv1, kDeadAccessCount]
      exact List.mem_map.mpr ⟨(k, decValue v), mem_of_cacheLookup hlk, rfl⟩
    have hone : (PurgeCache st).cache.countP
        (fun kv => kv.2.access_count - 1 = kDeadAccessCount) = 1 := by
      rw [List.countP_congr (q := fun kv => kv.1 = k) ?_]
      · exact countP_key_eq_one (keysNodup_purge hnd) hmemk
      · intro kv hkv
        have hmem2 := List.mem_of_mem_filter hkv
        rcases List.mem_map.mp hmem2 with ⟨kv0, hkv0, hkveq⟩
        obtain ⟨k0, v0⟩ := kv0
        subst hkveq
        simp only [decide_eq_true_eq, decValue, kDeadAccessCount]
        by_cases hk : k0 = k
        · subst hk
          have hv : v0 = v := value_eq_of_mem_lookup hkv0 hnd hl
          rw [hv, hv1]
          simp [kDeadAccessCount]
        · have h2 := (hother (k0, v0) hkv0 hk).2
          constructor
          · intro hcount
            exact absurd (by omega : v0.access_count = 1) h2
          · intro hkeq
            exact absurd hkeq hk
    rw [purge_evictions (PurgeCache st), purge_evictions st, hz, hone]

/-- Witness for C2 on a concrete single-entry cache holding a key with
counter 1: after two purges the key is gone and one eviction is counted. -/
theorem purge_decrements_and_evicts_witness :
    cacheLookup (PurgeCache (PurgeCache
      (⟨[(⟨7, ⟨2, 3⟩⟩, ⟨1, none⟩)], 0, 0, 0⟩ :
        PictureRasterzier))).cache ⟨7, ⟨2, 3⟩⟩ = none ∧
    (PurgeCache (PurgeCache
      (⟨[(⟨7, ⟨2, 3⟩⟩, ⟨1, none⟩)], 0, 0, 0⟩ :
        PictureRasterzier))).cache_evictions = 0 + 1 := by
  have h := purge_decrements_and_evicts
    ⟨[(⟨7, ⟨2, 3⟩⟩, ⟨1, none⟩)], 0, 0, 0⟩ (by decide)
  have h2 := h.2.2 ⟨7, ⟨2, 3⟩⟩ ⟨1, none⟩ (by decide) rfl
  exact ⟨h2.1, h2.2 (by decide)⟩

/-- C3: a key first requested in frame N (a miss), with exactly one purge
in between, and requested again with the same key and size in frame N+1
(the GPU granting the allocation there) yields a present image in frame
N+1 and bumps the hit counter by exactly 1. -/
theorem warmup_then_hit (gpu1 gpu2 : GpuCall) (t : GrTexture) (img : SkImage)
    (pic : SkPicture) (sz : SkISize) (st : PictureRasterzier)
    (hnd : keysNodup st.cache) (hsz : sz.isEmpty = false)
    (hfresh : cacheLookup st.cache ⟨pic.uniqueID, sz⟩ = none)
    (htex : gpu2.texture = some t) (hwrap : gpu2.wrap = some img) :
    (GetCachedImageIfPresent gpu1 true (some pic) sz st).1 = none ∧
    (GetCachedImageIfPresent gpu2 true (some pic) sz
      (PurgeCache (GetCachedImageIfPresent gpu1 true (some pic) sz
        st).2)).1 = some img ∧
    (GetCachedImageIfPresent gpu2 true (some pic) sz
      (PurgeCache (GetCachedImageIfPresent gpu1 true (some pic) sz
        st).2)).2.cache_hits = st.cache_hits + 1 := by
  rw [getCached_fresh gpu1 pic sz st hsz hfresh]
  have hnd1 : keysNodup
      (cacheInsert st.cache ⟨pic.uniqueID, sz⟩ ⟨1, none⟩) :=
    keysNodup_insert _ _ hnd
  have hl2 : cacheLookup (PurgeCache { st with
      cache := cacheInsert st.cache ⟨pic.uniqueID, sz⟩
        ⟨1, none⟩ }).cache ⟨pic.uniqueID, sz⟩ = some ⟨0, none⟩ := by
    rw [cacheLookup_purge _ hnd1, cacheLookup_insert_self]
    simp [decValue, kDeadAccessCount]
  rw [getCached_live_raster_ok gpu2 pic sz _ ⟨0, none⟩ t img hsz hl2
    (by decide) rfl htex hwrap]
  exact ⟨rfl, rfl, rfl⟩

/-- Witness for C3 on concrete inputs: picture 7 at size 2x3, a failing
GPU in frame N (irrelevant) and a succeeding one in frame N+1. -/
theorem warmup_then_hit_witness :
    (GetCachedImageIfPresent ⟨none, none⟩ true (some ⟨7⟩) ⟨2, 3⟩
      PictureRasterzier.init).1 = none ∧
    (GetCachedImageIfPresent ⟨some ⟨5⟩, some ⟨9⟩⟩ true (some ⟨7⟩) ⟨2, 3⟩
      (PurgeCache (GetCachedImageIfPresent ⟨none, none⟩ true (some ⟨7⟩)
        ⟨2, 3⟩ PictureRasterzier.init).2)).1 = some ⟨9⟩ ∧
    (GetCachedImageIfPresent ⟨some ⟨5⟩, some ⟨9⟩⟩ true (some ⟨7⟩) ⟨2, 3⟩
      (PurgeCache (GetCachedImageIfPresent ⟨none, none⟩ true (some ⟨7⟩)
        ⟨2, 3⟩ PictureRasterzier.init).2)).2.cache_hits =
      PictureRasterzier.init.cache_hits + 1 :=
  warmup_then_hit ⟨none, none⟩ ⟨some ⟨5⟩, some ⟨9⟩⟩ ⟨5⟩ ⟨9⟩ ⟨7⟩ ⟨2, 3⟩
    PictureRasterzier.init (by decide) (by decide) (by decide) rfl rfl

/-! The drawable picture node (`picture_layer.cc`). -/

/-- Truncation toward zero of a rational: the C++ conversion applied when
`SkISize::Make` receives the scaled floating-point bounds. -/
def ratToIntTrunc (q : ℚ) : Int := q.num / (q.den : Int)

/-- Canvas commands issued by `PictureLayer::Paint`. -/
inductive CanvasOp where
  | save
  | restore
  | translate (dx dy : ℚ)
  | drawPicture (pictureID : Nat)
  | drawImage (img : SkImage) (x y : ℚ)
deriving DecidableEq, Repr

/-- A drawable picture node: one picture, a 2D offset, and its paint
bounds (width and height of `paint_bounds()`). -/
structure PictureLayer where
  picture : SkPicture
  offset : ℚ × ℚ
  paint_bounds : ℚ × ℚ
deriving DecidableEq, Repr

/-- Device-pixel physical size computed by `PictureLayer::Paint`:
bounds width/height times the transform's scale factors, truncated. -/
def layerPhysicalSize (l : PictureLayer) (ctm : SkMatrix) : SkISize :=
  ⟨ratToIntTrunc (l.paint_bounds.1 * ctm.scaleX),
   ratToIntTrunc (l.paint_bounds.2 * ctm.scaleY)⟩

/-- The cache key the paint of a node resolves to. -/
def layerKey (l : PictureLayer) (ctm : SkMatrix) : Key :=
  ⟨l.picture.uniqueID, layerPhysicalSize l ctm⟩

/-- The direct vector-replay path: translate by the node's offset, replay
the picture, undo the translate. -/
def fallbackOps (l : PictureLayer) : List CanvasOp :=
  [CanvasOp.save, CanvasOp.translate l.offset.1 l.offset.2,
   CanvasOp.drawPicture l.picture.uniqueID, CanvasOp.restore]

/-- `PictureLayer::Paint`: compute the physical size, ask the rasterizer
for a cached image, and either blit it at the offset or fall back to
direct replay. Returns the canvas command list and the updated
rasterizer. -/
def PictureLayer.Paint (l : PictureLayer) (ctm : SkMatrix) (gpu : GpuCall)
    (grContextPresent : Bool) (st : PictureRasterzier) :
    List CanvasOp × PictureRasterzier :=
  let result := GetCachedImageIfPresent gpu grContextPresent
    (some l.picture) (layerPhysicalSize l ctm) st
  match result.1 with
  | some image =>
      ([CanvasOp.drawImage image l.offset.1 l.offset.2], result.2)
  | none => (fallbackOps l, result.2)

theorem paint_of_none {l : PictureLayer} {ctm : SkMatrix} {gpu : GpuCall}
    {grContextPresent : Bool} {st : PictureRasterzier}
    (h : (GetCachedImageIfPresent gpu grContextPresent (some l.picture)
      (layerPhysicalSize l ctm) st).1 = none) :
    PictureLayer.Paint l ctm gpu grContextPresent st =
      (fallbackOps l, (GetCachedImageIfPresent gpu grContextPresent
        (some l.picture) (layerPhysicalSize l ctm) st).2) := by
  simp only [PictureLayer.Paint, h]

theorem image_none_of_lookup_insert {c : List (Key × Value)} {k : Key}
    {u w : Value}
    (hw : cacheLookup (cacheInsert c k u) k = some w)
    (hu : u.image = none) : w.image = none := by
  rw [cacheLookup_insert_self] at hw
  cases Option.some.inj hw
  exact hu

/-- C4: with GPU texture allocation failing and the key's entry (if any)
holding no image, a `GetCachedImageIfPresent` call for that key returns
null, moves neither the fill nor the hit counter, leaves the entry's image
absent, and the owning node's paint takes the direct vector-replay path. -/
theorem alloc_failure_degrades (l : PictureLayer) (ctm : SkMatrix)
    (gpu : GpuCall) (grContextPresent : Bool) (st : PictureRasterzier)
    (htex : gpu.texture = none)
    (himg : ∀ v, cacheLookup st.cache (layerKey l ctm) = some v →
      v.image = none) :
    (GetCachedImageIfPresent gpu grContextPresent (some l.picture)
      (layerPhysicalSize l ctm) st).1 = none ∧
    (GetCachedImageIfPresent gpu grContextPresent (some l.picture)
      (layerPhysicalSize l ctm) st).2.cache_fills = st.cache_fills ∧
    (GetCachedImageIfPresent gpu grContextPresent (some l.picture)
      (layerPhysicalSize l ctm) st).2.cache_hits = st.cache_hits ∧
    (∀ v, cacheLookup (GetCachedImageIfPresent gpu grContextPresent
        (some l.picture) (layerPhysicalSize l ctm) st).2.cache
        (layerKey l ctm) = some v → v.image = none) ∧
    (PictureLayer.Paint l ctm gpu grContextPresent st).1 = fallbackOps l := by
  cases grContextPresent with
  | false =>
    rw [getCached_invalid _ _ _ _ _ (Or.inr (Or.inr rfl))]
    refine ⟨rfl, rfl, rfl, himg, ?_⟩
    rw [paint_of_none (by
      rw [getCached_invalid _ _ _ _ _ (Or.inr (Or.inr rfl))])]
  | true =>
    cases hE : (layerPhysicalSize l ctm).isEmpty with
    | true =>
      rw [getCached_invalid _ _ _ _ _ (Or.inl hE)]
      refine ⟨rfl, rfl, rfl, himg, ?_⟩
      rw [paint_of_none (by rw [getCached_invalid _ _ _ _ _ (Or.inl hE)])]
    | false =>
      cases hlk : cacheLookup st.cache (layerKey l ctm) with
      | none =>
        rw [getCached_fresh gpu l.picture _ st hE hlk]
        refine ⟨rfl, rfl, rfl, ?_, ?_⟩
        · exact fun w hw => image_none_of_lookup_insert hw rfl
        · rw [paint_of_none
            (by rw [getCached_fresh gpu l.picture _ st hE hlk])]
      | some v =>
        have hvimg : v.image = none := himg v hlk
        have hlk' : cacheLookup st.cache
            ⟨l.picture.uniqueID, layerPhysicalSize l ctm⟩ = some v := hlk
        by_cases hdead : v.access_count = kDeadAccessCount
        · have hre := getCached_dead gpu l.picture (layerPhysicalSize l ctm)
            st hE (by rw [hlk']; exact hdead)
          rw [hlk'] at hre
          rw [hre]
          refine ⟨rfl, rfl, rfl, ?_, ?_⟩
          · exact fun w hw => image_none_of_lookup_insert hw hvimg
          · rw [paint_of_none (by rw [hre])]
        · have hre := getCached_live_alloc_fail gpu l.picture
            (layerPhysicalSize l ctm) st v hE hlk' hdead hvimg htex
          rw [hre]
          refine ⟨rfl, rfl, rfl, ?_, ?_⟩
          · exact fun w hw => image_none_of_lookup_insert hw rfl
          · rw [paint_of_none (by rw [hre])]

/-- Witness for C4 on a concrete node and a GPU refusing allocation. -/
theorem alloc_failure_degrades_witness :
    (GetCachedImageIfPresent ⟨none, none⟩ true
      (some (⟨⟨7⟩, (10, 20), (3, 4)⟩ : PictureLayer).picture)
      (layerPhysicalSize ⟨⟨7⟩, (10, 20), (3, 4)⟩ ⟨1, 1⟩)
      PictureRasterzier.init).1 = none ∧
    (GetCachedImageIfPresent ⟨none, none⟩ true
      (some (⟨⟨7⟩, (10, 20), (3, 4)⟩ : PictureLayer).picture)
      (layerPhysicalSize ⟨⟨7⟩, (10, 20), (3, 4)⟩ ⟨1, 1⟩)
      PictureRasterzier.init).2.cache_fills =
        PictureRasterzier.init.cache_fills ∧
    (GetCachedImageIfPresent ⟨none, none⟩ true
      (some (⟨⟨7⟩, (10, 20), (3, 4)⟩ : PictureLayer).picture)
      (layerPhysicalSize ⟨⟨7⟩, (10, 20), (3, 4)⟩ ⟨1, 1⟩)
      PictureRasterzier.init).2.cache_hits =
        PictureRasterzier.init.cache_hits ∧
    (∀ v, cacheLookup (GetCachedImageIfPresent ⟨none, none⟩ true
        (some (⟨⟨7⟩, (10, 20), (3, 4)⟩ : PictureLayer).picture)
        (layerPhysicalSize ⟨⟨7⟩, (10, 20), (3, 4)⟩ ⟨1, 1⟩)
        PictureRasterzier.init).2.cache
        (layerKey ⟨⟨7⟩, (10, 20), (3, 4)⟩ ⟨1, 1⟩) = some v →
      v.image = none) ∧
    (PictureLayer.Paint ⟨⟨7⟩, (10, 20), (3, 4)⟩ ⟨1, 1⟩ ⟨none, none⟩ true
      PictureRasterzier.init).1 = fallbackOps ⟨⟨7⟩, (10, 20), (3, 4)⟩ :=
  alloc_failure_degrades ⟨⟨7⟩, (10, 20), (3, 4)⟩ ⟨1, 1⟩ ⟨none, none⟩ true
    PictureRasterzier.init rfl
    (fun v h => by simp [PictureRasterzier.init, cacheLookup] at h)

/-! The per-frame lookup/purge discipline and its invariant. -/

/-- One cache request during a frame: the inputs of one
`GetCachedImageIfPresent` call (the picture is present; a null picture is
an invalid request covered by the guard). -/
structure Request where
  gpu : GpuCall
  grContextPresent : Bool
  picture : SkPicture
  physical_size : SkISize
deriving DecidableEq, Repr

/-- The cache key a request resolves to. -/
def Request.key (r : Request) : Key :=
  ⟨r.picture.uniqueID, r.physical_size⟩

/-- A request passing the input guard of `GetCachedImageIfPresent`. -/
def Request.valid (r : Request) : Prop :=
  r.physical_size.isEmpty = false ∧ r.grContextPresent = true

instance (r : Request) : Decidable r.valid := by
  unfold Request.valid
  infer_instance

/-- The state after one `GetCachedImageIfPresent` call. -/
def applyRequest (r : Request) (st : PictureRasterzier) : PictureRasterzier :=
  (GetCachedImageIfPresent r.gpu r.grContextPresent (some r.picture)
    r.physical_size st).2

/-- Cache states reachable from a fresh rasterizer under the per-frame
discipline: each key is looked up at most once per frame, and `PurgeCache`
runs exactly once at every frame boundary. The key list records the keys of
the valid lookups performed so far in the current frame. -/
inductive Reachable : List Key → PictureRasterzier → Prop where
  | init : Reachable [] PictureRasterzier.init
  | frameEnd {acc : List Key} {st : PictureRasterzier} :
      Reachable acc st → Reachable [] (PurgeCache st)
  | lookupValid {acc : List Key} {st : PictureRasterzier} {r : Request} :
      Reachable acc st → r.valid → r.key ∉ acc →
      Reachable (r.key :: acc) (applyRequest r st)
  | lookupInvalid {acc : List Key} {st : PictureRasterzier} {r : Request} :
      Reachable acc st → ¬ r.valid →
      Reachable acc (applyRequest r st)

/-- The discipline invariant: keys are unique, an entry accessed in the
current frame carries counter 1, and any other entry carries counter 0. -/
def CacheInv (acc : List Key) (st : PictureRasterzier) : Prop :=
  keysNodup st.cache ∧
  ∀ kv ∈ st.cache,
    (kv.1 ∈ acc → kv.2.access_count = 1) ∧
    (kv.1 ∉ acc → kv.2.access_count = 0)

theorem mem_insert_elim {l : List (Key × Value)} {k : Key} {v : Value}
    (hnd : keysNodup l) {kv : Key × Value} (h : kv ∈ cacheInsert l k v) :
    kv = (k, v) ∨ (kv ∈ l ∧ kv.1 ≠ k) := by
  induction l with
  | nil =>
    simp only [cacheInsert, List.mem_singleton] at h
    exact Or.inl h
  | cons hd tl ih =>
    obtain ⟨k', v'⟩ := hd
    simp only [keysNodup, List.map_cons, List.nodup_cons] at hnd
    by_cases hk : k' = k
    · subst hk
      rw [show cacheInsert ((k', v') :: tl) k' v = (k', v) :: tl by
        simp [cacheInsert]] at h
      rcases List.mem_cons.mp h with rfl | hmem
      · exact Or.inl rfl
      · refine Or.inr ⟨List.mem_cons_of_mem _ hmem, fun he => ?_⟩
        exact hnd.1 (List.mem_map.mpr ⟨kv, hmem, he⟩)
    · rw [show cacheInsert ((k', v') :: tl) k v =
          (k', v') :: cacheInsert tl k v by simp [cacheInsert, hk]] at h
      rcases List.mem_cons.mp h with rfl | hmem
      · exact Or.inr ⟨List.mem_cons_self _ _, hk⟩
      · rcases ih hnd.2 hmem with h' | h'
        · exact Or.inl h'
        · exact Or.inr ⟨List.mem_cons_of_mem _ h'.1, h'.2⟩

/-- On the live path the cache update is always an insert of the
incremented counter, whatever image ends up stored. -/
theorem getCached_live_cache (gpu : GpuCall) (pic : SkPicture) (sz : SkISize)
    (st : PictureRasterzier) (v : Value) (hsz : sz.isEmpty = false)
    (hl : cacheLookup st.cache ⟨pic.uniqueID, sz⟩ = some v)
    (hlive : ¬ v.access_count = kDeadAccessCount) :
    ∃ img, (GetCachedImageIfPresent gpu true (some pic) sz st).2.cache =
      cacheInsert st.cache ⟨pic.uniqueID, sz⟩
        ⟨v.access_count + 1, img⟩ := by
  cases himg : v.image with
  | some img =>
    exact ⟨some img,
      by rw [getCached_live_image gpu pic sz st v img hsz hl hlive himg]⟩
  | none =>
    cases htex : gpu.texture with
    | none =>
      exact ⟨none,
        by rw [getCached_live_alloc_fail gpu pic sz st v hsz hl hlive
          himg htex]⟩
    | some t =>
      cases hwrap : gpu.wrap with
      | none =>
        exact ⟨none,
          by rw [getCached_live_wrap_fail gpu pic sz st v t hsz hl hlive
            himg htex hwrap]⟩
      | some img =>
        exact ⟨some img,
          by rw [getCached_live_raster_ok gpu pic sz st v t img hsz hl hlive
            himg htex hwrap]⟩

theorem reachable_inv {acc : List Key} {st : PictureRasterzier}
    (h : Reachable acc st) : CacheInv acc st := by
  induction h with
  | init =>
    exact ⟨List.nodup_nil, by simp [PictureRasterzier.init]⟩
  | frameEnd h ih =>
    rename_i acc' st'
    obtain ⟨hnd, hmem⟩ := ih
    refine ⟨keysNodup_purge hnd, ?_⟩
    intro kv hkv
    have halive := (List.mem_filter.mp hkv).2
    rcases List.mem_map.mp (List.mem_of_mem_filter hkv) with
      ⟨kv0, hkv0, hkveq⟩
    have h4 := hmem kv0 hkv0
    refine ⟨fun hin => absurd hin (List.not_mem_nil _), fun _ => ?_⟩
    by_cases hk0 : kv0.1 ∈ acc'
    · have h1 := h4.1 hk0
      rw [← hkveq]
      simp [decValue, h1]
    · have h0 := h4.2 hk0
      exfalso
      rw [← hkveq] at halive
      simp [decValue, h0, kDeadAccessCount] at halive
  | lookupValid h hval hnotin ih =>
    rename_i acc' st' r
    obtain ⟨hnd, hmem⟩ := ih
    obtain ⟨hsz, hgr⟩ := hval
    have happ : applyRequest r st' =
        (GetCachedImageIfPresent r.gpu true (some r.picture)
          r.physical_size st').2 := by
      unfold applyRequest
      rw [hgr]
    cases hlk : cacheLookup st'.cache r.key with
    | none =>
      have hst := getCached_fresh r.gpu r.picture r.physical_size st' hsz hlk
      rw [happ, hst]
      refine ⟨keysNodup_insert _ _ hnd, ?_⟩
      intro kv hkv
      rcases mem_insert_elim hnd hkv with rfl | ⟨hmem', hne⟩
      · exact ⟨fun _ => rfl,
          fun hnot => absurd (List.mem_cons_self _ _) hnot⟩
      · have h4 := hmem kv hmem'
        refine ⟨fun hin => ?_, fun hnot => ?_⟩
        · rcases List.mem_cons.mp hin with he | hin'
          · exact absurd he hne
          · exact h4.1 hin'
        · exact h4.2 (fun hin' => hnot (List.mem_cons_of_mem _ hin'))
    | some v =>
      have hv0 : v.access_count = 0 :=
        (hmem (r.key, v) (mem_of_cacheLookup hlk)).2 hnotin
      have hlive : ¬ v.access_count = kDeadAccessCount := by
        rw [hv0]
        decide
      obtain ⟨img, hcache⟩ := getCached_live_cache r.gpu r.picture
        r.physical_size st' v hsz hlk hlive
      rw [happ]
      constructor
      · rw [hcache]
        exact keysNodup_insert _ _ hnd
      · intro kv hkv
        rw [hcache] at hkv
        rcases mem_insert_elim hnd hkv with rfl | ⟨hmem', hne⟩
        · refine ⟨fun _ => ?_, fun hnot =>
            absurd (List.mem_cons_self _ _) hnot⟩
          simp [hv0]
        · have h4 := hmem kv hmem'
          refine ⟨fun hin => ?_, fun hnot => ?_⟩
          · rcases List.mem_cons.mp hin with he | hin'
            · exact absurd he hne
            · exact h4.1 hin'
          · exact h4.2 (fun hin' => hnot (List.mem_cons_of_mem _ hin'))
  | lookupInvalid h hnval ih =>
    rename_i acc' st' r
    have hcase : r.physical_size.isEmpty = true ∨
        (some r.picture : Option SkPicture) = none ∨
        r.grContextPresent = false := by
      by_cases he : r.physical_size.isEmpty = true
      · exact Or.inl he
      · refine Or.inr (Or.inr ?_)
        cases hg : r.grContextPresent
        · rfl
        · refine absurd ⟨?_, hg⟩ hnval
          cases hE : r.physical_size.isEmpty
          · rfl
          · exact absurd hE he
    have hst : applyRequest r st' = st' := by
      unfold applyRequest
      rw [getCached_invalid _ _ _ _ _ hcase]
    rw [hst]
    exact ih

/-- A concrete valid request: picture 7 at physical size 2x3, with a GPU
that refuses allocation (irrelevant to the liveliness protocol). -/
def demoRequest : Request := ⟨⟨none, none⟩, true, ⟨7⟩, ⟨2, 3⟩⟩

/-- The state after one frame that looked up `demoRequest` once: the entry
survived the frame-end purge and now holds counter 0. -/
def postPurgeState : PictureRasterzier :=
  PurgeCache (applyRequest demoRequest PictureRasterzier.init)

theorem postPurgeState_reachable : Reachable [] postPurgeState :=
  Reachable.frameEnd
    (Reachable.lookupValid Reachable.init (by decide) (List.not_mem_nil _))

/-- C5 counterexample: a state reachable under the per-frame discipline —
one lookup, then the frame-end purge — holds an entry whose liveliness
counter is 0, which is neither the dead sentinel nor positive, refuting
the claimed "DEAD or positive" invariant. -/
theorem counter_invariant_dead_or_positive_false :
    Reachable [] postPurgeState ∧
    cacheLookup postPurgeState.cache ⟨7, ⟨2, 3⟩⟩ = some ⟨0, none⟩ ∧
    ¬ ((0 : Int) = kDeadAccessCount ∨ 0 < (0 : Int)) :=
  ⟨postPurgeState_reachable, by decide, by decide⟩

/-- C5 (amended): in every cache state reachable under the per-frame
discipline, the liveliness counter of every entry present in the map is
either zero or a positive integer — never the dead sentinel, entries that
reach it being erased by the purge that kills them — and an entry accessed
during the current frame has counter exactly 1. -/
theorem reachable_counter_zero_or_positive {acc : List Key}
    {st : PictureRasterzier} (h : Reachable acc st) :
    ∀ kv ∈ st.cache,
      (kv.2.access_count = 0 ∨ 0 < kv.2.access_count) ∧
      ¬ kv.2.access_count = kDeadAccessCount ∧
      (kv.1 ∈ acc → kv.2.access_count = 1) := by
  intro kv hkv
  have h4 := (reachable_inv h).2 kv hkv
  by_cases hk : kv.1 ∈ acc
  · have h1 := h4.1 hk
    rw [h1]
    exact ⟨Or.inr (by norm_num), by decide, fun _ => rfl⟩
  · have h0 := h4.2 hk
    rw [h0]
    exact ⟨Or.inl rfl, by decide, fun hin => absurd hin hk⟩

/-- Witness for the amended C5 at the concrete post-purge entry. -/
theorem reachable_counter_zero_or_positive_witness :
    ((0 : Int) = 0 ∨ 0 < (0 : Int)) ∧
    ¬ (0 : Int) = kDeadAccessCount ∧
    ((⟨7, ⟨2, 3⟩⟩ : Key) ∈ ([] : List Key) → (0 : Int) = 1) :=
  reachable_counter_zero_or_positive postPurgeState_reachable
    (⟨7, ⟨2, 3⟩⟩, ⟨0, none⟩) (by decide)

/-- C7: under the lookup/purge discipline, a call that finds a
pre-existing non-dead entry for a key not yet accessed this frame
increments its counter to exactly 1, so the debug assertion
`access_count == 1` can never fire. -/
theorem discipline_keeps_assert {acc : List Key} {st : PictureRasterzier}
    (h : Reachable acc st) (r : Request) (hval : r.valid)
    (hnotin : r.key ∉ acc) (v : Value)
    (hl : cacheLookup st.cache r.key = some v)
    (hlive : ¬ v.access_count = kDeadAccessCount) :
    v.access_count + 1 = 1 := by
  have h0 := ((reachable_inv h).2 (r.key, v) (mem_of_cacheLookup hl)).2 hnotin
  rw [h0]
  decide

/-- Witness for C7 at the concrete warmed-up state. -/
theorem discipline_keeps_assert_witness :
    (⟨0, none⟩ : Value).access_count + 1 = 1 :=
  discipline_keeps_assert postPurgeState_reachable demoRequest (by decide)
    (List.not_mem_nil _) ⟨0, none⟩ (by decide) (by decide)

/-! The frame context (`paint_context.cc`). -/

/-- The frame context state that is relevant to the cache: its rasterizer
and the frame counter (timers and the diagnostics overlay carry no
cache-relevant state). -/
structure PaintContext where
  rasterizer : PictureRasterzier
  frame_count : Nat
deriving DecidableEq, Repr

/-- `PaintContext::~PaintContext`: the teardown purge of the rasterizer. -/
def PaintContext.dtor (pc : PaintContext) : PictureRasterzier :=
  PurgeCache pc.rasterizer

/-- C8 counterexample: the destructor runs an ordinary decrement-and-check
purge, not an unconditional clear: an entry whose counter is 1 at teardown
survives with counter 0, so the cache is not left empty. -/
theorem dtor_purge_not_unconditional :
    cacheLookup (PaintContext.dtor
      ⟨⟨[(⟨7, ⟨2, 3⟩⟩, ⟨1, none⟩)], 0, 0, 0⟩, 0⟩).cache ⟨7, ⟨2, 3⟩⟩ =
      some ⟨0, none⟩ ∧
    (PaintContext.dtor
      ⟨⟨[(⟨7, ⟨2, 3⟩⟩, ⟨1, none⟩)], 0, 0, 0⟩, 0⟩).cache ≠ [] :=
  ⟨by decide, by decide⟩

/-- C8 (amended): the teardown purge decrements every counter and erases
the entries that reach the dead sentinel; when teardown follows a completed
frame — every remaining entry then holds counter 0 — this removes all
remaining entries, leaving the cache empty, and counts each removal as an
eviction. -/
theorem dtor_clears_after_completed_frame (pc : PaintContext)
    (h0 : ∀ kv ∈ pc.rasterizer.cache, kv.2.access_count = 0) :
    (PaintContext.dtor pc).cache = [] ∧
    (PaintContext.dtor pc).cache_evictions =
      pc.rasterizer.cache_evictions + pc.rasterizer.cache.length := by
  constructor
  · unfold PaintContext.dtor PurgeCache
    refine List.filter_eq_nil_iff.mpr ?_
    intro kv hkv
    rcases List.mem_map.mp hkv with ⟨kv0, hkv0, hkveq⟩
    have hz := h0 kv0 hkv0
    rw [← hkveq]
    simp [decValue, hz, kDeadAccessCount]
  · unfold PaintContext.dtor
    rw [purge_evictions]
    congr 1
    refine List.countP_eq_length.mpr ?_
    intro kv hkv
    have hz := h0 kv hkv
    simp [hz, kDeadAccessCount]

/-- Witness for the amended C8: a single surviving entry at counter 0 is
erased by the teardown purge and counted as an eviction. -/
theorem dtor_clears_after_completed_frame_witness :
    (PaintContext.dtor
      ⟨⟨[(⟨7, ⟨2, 3⟩⟩, ⟨0, none⟩)], 0, 0, 0⟩, 0⟩).cache = [] ∧
    (PaintContext.dtor
      ⟨⟨[(⟨7, ⟨2, 3⟩⟩, ⟨0, none⟩)], 0, 0, 0⟩, 0⟩).cache_evictions =
      (⟨[(⟨7, ⟨2, 3⟩⟩, ⟨0, none⟩)], 0, 0, 0⟩ :
        PictureRasterzier).cache_evictions +
      (⟨[(⟨7, ⟨2, 3⟩⟩, ⟨0, none⟩)], 0, 0, 0⟩ :
        PictureRasterzier).cache.length :=
  dtor_clears_after_completed_frame
    ⟨⟨[(⟨7, ⟨2, 3⟩⟩, ⟨0, none⟩)], 0, 0, 0⟩, 0⟩ (by decide)

/-!
Denotational pixel model for the two paint paths of `PictureLayer::Paint`.
External Skia semantics (canvas transforms, picture replay, image
sampling) is modelled continuously over ℚ with an abstract color type:
a picture is its pixel content as a function of local coordinates, and
each draw operation determines which picture point a device pixel shows.
-/

/-- The pixel content of a picture over its local coordinate plane. -/
def PictureFun (α : Type) : Type := ℚ × ℚ → α

/-- Render step of `ImageFromPicture`:
`canvas->setMatrix(SkMatrix::MakeScale(sx, sy)); canvas->drawPicture(...)`
fills the physical-size texture so that texture pixel (x, y) holds the
picture sampled at (x / sx, y / sy). -/
def rasterTexture {α : Type} (pic : PictureFun α) (sx sy : ℚ) :
    PictureFun α :=
  fun q => pic (q.1 / sx, q.2 / sy)

/-- Wrap step of `ImageFromPicture`: the backend texture description's
width/height are the physical size divided by the scale factors, so the
wrapped image's nominal grid is the logical grid and sampling it at
nominal (u, v) reads the physical backing texture at (u * sx, v * sy). -/
def wrappedImage {α : Type} (pic : PictureFun α) (sx sy : ℚ) :
    PictureFun α :=
  fun u => rasterTexture pic sx sy (u.1 * sx, u.2 * sy)

/-- Cached path of `PictureLayer::Paint`:
`canvas.drawImage(image.get(), offset_.x(), offset_.y())`. With `localOf`
mapping a device pixel to the canvas's local coordinates (the inverse of
the total matrix), device pixel p shows the image sampled at
local(p) - offset. -/
def cachedPathPixel {α : Type} (pic : PictureFun α) (sx sy : ℚ)
    (localOf : ℚ × ℚ → ℚ × ℚ) (offset : ℚ × ℚ) : PictureFun α :=
  fun p => wrappedImage pic sx sy
    ((localOf p).1 - offset.1, (localOf p).2 - offset.2)

/-- Fallback path of `PictureLayer::Paint`: `save(); translate(offset);
drawPicture(picture); restore()` — device pixel p shows the picture
sampled at local(p) - offset. -/
def fallbackPathPixel {α : Type} (pic : PictureFun α)
    (localOf : ℚ × ℚ → ℚ × ℚ) (offset : ℚ × ℚ) : PictureFun α :=
  fun p => pic ((localOf p).1 - offset.1, (localOf p).2 - offset.2)

/-- C9: for every picture, offset and transform (any nonzero scale
factors, any local-coordinate map), the node's fallback replay path and
its cached-image path show the same picture point at every device pixel:
the division by the scale in the wrapped image's nominal size exactly
cancels the scale baked into the rasterized texture. -/
theorem cached_and_fallback_paths_pixel_equivalent {α : Type}
    (pic : PictureFun α) (sx sy : ℚ) (localOf : ℚ × ℚ → ℚ × ℚ)
    (offset : ℚ × ℚ) (hsx : sx ≠ 0) (hsy : sy ≠ 0) :
    cachedPathPixel pic sx sy localOf offset =
      fallbackPathPixel pic localOf offset := by
  funext p
  unfold cachedPathPixel fallbackPathPixel wrappedImage rasterTexture
  rw [mul_div_cancel_right₀ _ hsx, mul_div_cancel_right₀ _ hsy]

/-- Witness for C9 at scale 2x3, identity local map, offset (10, 20) and
the identity-colored picture. -/
theorem cached_and_fallback_paths_pixel_equivalent_witness :
    cachedPathPixel (fun q => q) 2 3 (fun p => p) (10, 20) =
      fallbackPathPixel (fun q => q) (fun p => p) (10, 20) :=
  cached_and_fallback_paths_pixel_equivalent (fun q => q) 2 3 (fun p => p)
    (10, 20) (by norm_num) (by norm_num)

end SkyCompositor
